import Mathlib

/-!
Verification of the Monty Hall simulator core (src/index.tsx): board
generation by rejection sampling, the host's reveal rule, the manual game's
click-driven state machine, the configuration validator, and the batch
simulation loop with cooperative cancellation.

Randomness is modelled by explicit draws: each call of the form
`arr[Math.floor(Math.random() * arr.length)]` becomes `listPick arr r` for an
arbitrary natural draw `r`, reduced modulo the array length (an empty array
yields `none`, matching the `undefined` index of the source). The rejection
sampling loop of board generation consumes a list of draws and returns `none`
when the draws run out, mirroring the fact that the source's `while` loop only
terminates when enough fresh positions are drawn.
-/

/-- One door of the manual game: `hasPrize`, `isOpen`, `isSelected`,
as in the `DoorState` interface of the source. -/
structure DoorState where
  hasPrize : Bool
  isOpen : Bool
  isSelected : Bool
  deriving DecidableEq, Repr

/-- Win/loss counters per strategy, as in the `Stats` interface. -/
structure Stats where
  wins : Nat
  losses : Nat
  deriving DecidableEq, Repr

/-- The all-false door used as the out-of-range default. -/
def blankDoor : DoorState := ⟨false, false, false⟩

/-- `arr[Math.floor(Math.random() * arr.length)]` with draw `r`:
the element at `r % arr.length`, `none` (undefined) for an empty array. -/
def listPick (l : List Nat) (r : Nat) : Option Nat :=
  l.get? (r % l.length)

/-- The rejection-sampling loop of `runSimulation` (lines 180-187): draw a
position, mark it if unmarked, until `need` prizes are placed; `none` when the
draw list is exhausted first. -/
def placePrizes : List Bool → Nat → List Nat → Option (List Bool)
  | doors, 0, _ => some doors
  | _, _ + 1, [] => none
  | doors, need + 1, d :: rest =>
    if doors.getD (d % doors.length) false then
      placePrizes doors (need + 1) rest
    else
      placePrizes (doors.set (d % doors.length) true) need rest

/-- Per-trial board construction of the batch simulator:
`Array(numberOfDoors).fill(false)` then the rejection-sampling loop. -/
def genBoard (numberOfDoors numberOfPrizes : Nat) (draws : List Nat) :
    Option (List Bool) :=
  placePrizes (List.replicate numberOfDoors false) numberOfPrizes draws

/-- The rejection-sampling loop of `setupDoors` (lines 47-54), acting on the
`hasPrize` field of `DoorState` records. -/
def placePrizesM : List DoorState → Nat → List Nat → Option (List DoorState)
  | doors, 0, _ => some doors
  | _, _ + 1, [] => none
  | doors, need + 1, d :: rest =>
    if (doors.getD (d % doors.length) blankDoor).hasPrize then
      placePrizesM doors (need + 1) rest
    else
      placePrizesM
        (doors.set (d % doors.length)
          { doors.getD (d % doors.length) blankDoor with hasPrize := true })
        need rest

/-- `setupDoors` of the manual game: a fresh board of closed, unselected doors
with prizes placed by rejection sampling. -/
def setupDoors (numberOfDoors numberOfPrizes : Nat) (draws : List Nat) :
    Option (List DoorState) :=
  placePrizesM (List.replicate numberOfDoors blankDoor) numberOfPrizes draws

/-- `Array.from({length: numberOfDoors}, (_, k) => k).filter(k => k !== playerChoice)`. -/
def simOtherDoors (numberOfDoors playerChoice : Nat) : List Nat :=
  (List.range numberOfDoors).filter (fun k => k != playerChoice)

/-- `otherDoors.filter(k => !currentDoors[k])`: the non-prize, unpicked doors
the host may open in a batch trial. -/
def simHostOpenable (currentDoors : List Bool) (numberOfDoors playerChoice : Nat) :
    List Nat :=
  (simOtherDoors numberOfDoors playerChoice).filter (fun k => !(currentDoors.getD k false))

/-- The host's random selection in a batch trial (line 198). -/
def simHostOpen (currentDoors : List Bool) (numberOfDoors playerChoice hostDraw : Nat) :
    Option Nat :=
  listPick (simHostOpenable currentDoors numberOfDoors playerChoice) hostDraw

/-- Lines 196-200 of `runSimulation`: the host opens a random eligible door and
the player switches to a random remaining non-picked, non-opened door. -/
def switchStep (currentDoors : List Bool)
    (numberOfDoors playerChoice hostDraw switchDraw : Nat) : Option Nat :=
  let hostOpened := simHostOpen currentDoors numberOfDoors playerChoice hostDraw
  let switchable := (simOtherDoors numberOfDoors playerChoice).filter
    (fun k => some k != hostOpened)
  listPick switchable switchDraw

/-- The random draws one batch trial consumes. -/
structure TrialRand where
  boardDraws : List Nat
  pickDraw : Nat
  hostDraw : Nat
  switchDraw : Nat
  deriving DecidableEq, Repr

/-- Whether the trial increments the stay counter and the switch counter. -/
structure TrialResult where
  stayWin : Bool
  switchWin : Bool
  deriving DecidableEq, Repr

/-- One trial of `runSimulation` (lines 179-204): generate a board, pick a
player door, score the stay outcome, and — only when the pick holds no
prize — run the host-open-then-switch step and score the switch outcome. -/
def runTrial (numberOfDoors numberOfPrizes : Nat) (tr : TrialRand) :
    Option TrialResult :=
  match genBoard numberOfDoors numberOfPrizes tr.boardDraws with
  | none => none
  | some currentDoors =>
    let playerChoice := tr.pickDraw % numberOfDoors
    let stayWin := currentDoors.getD playerChoice false
    let switchWin :=
      if currentDoors.getD playerChoice false then false
      else
        match switchStep currentDoors numberOfDoors playerChoice
            tr.hostDraw tr.switchDraw with
        | none => false
        | some c => currentDoors.getD c false
    some ⟨stayWin, switchWin⟩

/-- The outcome of `handleApplyConfig`'s `validate` closure: either the
configuration is accepted or the first failing rule's error. -/
inductive ValidationResult
  | ok
  | notANumber
  | tooFewDoors
  | tooFewPrizes
  | tooManyPrizes
  | insufficientSwitchChoice
  deriving DecidableEq, Repr

/-- `validate` of `handleApplyConfig` (lines 329-339): a `none` input stands
for a `NaN` parse result; the five rules are checked in the source's order. -/
def validateConfig (doorCount prizeCount : Option Int) : ValidationResult :=
  match doorCount, prizeCount with
  | some d, some p =>
    if d < 3 then .tooFewDoors
    else if p < 1 then .tooFewPrizes
    else if d ≤ p then .tooManyPrizes
    else if d - p < 2 then .insufficientSwitchChoice
    else .ok
  | _, _ => .notANumber

/-- The manual game's phase, as the `gameState` string union of the source. -/
inductive GState
  | initial
  | picked
  | revealed
  | finished
  deriving DecidableEq, Repr

/-- The manual game's React state: the door list, the phase, and the
`manualStats` record `{stayWins, switchWins, total}`. -/
structure ManualState where
  doors : List DoorState
  gameState : GState
  stayWins : Nat
  switchWins : Nat
  total : Nat
  deriving DecidableEq, Repr

/-- `doors.findIndex(d => d.isSelected)`: the initial pick, `-1` when no door
is selected. -/
def manualInitialChoice (doors : List DoorState) : Int :=
  match doors.findIdx? (fun d => d.isSelected) with
  | some i => (i : Int)
  | none => -1

/-- The host-eligible indices of the manual game (lines 103-108): doors that
are neither selected nor prize-holding, in index order. -/
def manualHostOpenable (doors : List DoorState) : List Nat :=
  (List.range doors.length).filter
    (fun i => !(doors.getD i blankDoor).isSelected && !(doors.getD i blankDoor).hasPrize)

/-- The host's move of the manual game (lines 101-117): open a random eligible
door; with `undefined` as the chosen index (empty eligible set) every door's
`isOpen` comparison is false. -/
def manualHostStep (doors : List DoorState) (hostDraw : Nat) : List DoorState :=
  let hostOpenIndex := listPick (manualHostOpenable doors) hostDraw
  doors.mapIdx (fun i d => { d with isOpen := some i == hostOpenIndex })

/-- The timeout callback scheduled by the initial pick: the host's move fires
and the game transitions to `revealed`. -/
def hostMove (st : ManualState) (hostDraw : Nat) : ManualState :=
  { st with doors := manualHostStep st.doors hostDraw, gameState := .revealed }

/-- `handleDoorClick` (lines 85-161) as a pure transition: a no-op in
`picked` and `finished`; the initial pick in `initial`; in `revealed`, a no-op
on an open door and otherwise the finalize step updating `manualStats`,
opening every door and marking the final selection. -/
def handleDoorClick (st : ManualState) (clickedIndex : Nat) : ManualState :=
  match st.gameState with
  | .finished => st
  | .picked => st
  | .initial =>
    { st with
      doors := st.doors.set clickedIndex
        { st.doors.getD clickedIndex blankDoor with isSelected := true }
      gameState := .picked }
  | .revealed =>
    if (st.doors.getD clickedIndex blankDoor).isOpen then st
    else
      let switched := (clickedIndex : Int) != manualInitialChoice st.doors
      let hasWon := (st.doors.getD clickedIndex blankDoor).hasPrize
      { doors := st.doors.mapIdx
          (fun i d => { d with isOpen := true, isSelected := i == clickedIndex })
        gameState := .finished
        stayWins := if !switched && hasWon then st.stayWins + 1 else st.stayWins
        switchWins := if switched && hasWon then st.switchWins + 1 else st.switchWins
        total := st.total + 1 }

/-- `resetManualGame` (lines 75-79): regenerate the board from the same
configuration and return to `initial`; `manualStats` is untouched. -/
def resetManualGame (numberOfDoors numberOfPrizes : Nat) (st : ManualState)
    (draws : List Nat) : Option ManualState :=
  (setupDoors numberOfDoors numberOfPrizes draws).map
    (fun ds => { st with doors := ds, gameState := .initial })

/-- The batch simulator's loop state: the local win counters, the published
`stayStats`/`switchStats`/`progress`/`animationData` values, and the number of
trials completed so far. -/
structure SimState where
  localStayWins : Nat
  localSwitchWins : Nat
  stayStats : Stats
  switchStats : Stats
  progress : ℚ
  animationData : List Bool
  trialsCompleted : Nat
  deriving DecidableEq, Repr

/-- The state before the loop starts (lines 167-172). -/
def initSimState : SimState :=
  ⟨0, 0, ⟨0, 0⟩, ⟨0, 0⟩, 0, [], 0⟩

/-- The body of loop iteration `i` (lines 179-220): run the trial, publish
both stats records, append a stay marker to the bounded trace at sampling
intervals, and publish fractional progress at reporting intervals. -/
def simStep (numberOfDoors numberOfPrizes simulations i : Nat) (tr : TrialRand)
    (st : SimState) : Option SimState :=
  match runTrial numberOfDoors numberOfPrizes tr with
  | none => none
  | some res =>
    let sw := st.localStayWins + (if res.stayWin then 1 else 0)
    let sww := st.localSwitchWins + (if res.switchWin then 1 else 0)
    let st1 : SimState :=
      { st with
        localStayWins := sw
        localSwitchWins := sww
        stayStats := ⟨sw, i - sw⟩
        switchStats := ⟨sww, i - sww⟩
        trialsCompleted := i }
    let st2 : SimState :=
      if i % ((simulations + 299) / 300) == 0 then
        { st1 with animationData :=
            (st1.animationData.drop (st1.animationData.length - 299)) ++ [res.stayWin] }
      else st1
    some (if i % ((simulations + 99) / 100) == 0 then
      { st2 with progress := (i : ℚ) / (simulations : ℚ) * 100 }
    else st2)

/-- The trial loop (lines 176-221): with `fuel` iterations left the next trial
index is `simulations - fuel + 1`; the `simulationStopped` flag is checked
before each trial starts. -/
def simLoop (numberOfDoors numberOfPrizes simulations : Nat) (stopped : Nat → Bool)
    (rands : Nat → TrialRand) : Nat → SimState → Option SimState
  | 0, st => some st
  | f + 1, st =>
    let i := simulations - f
    if stopped i then some st
    else
      match simStep numberOfDoors numberOfPrizes simulations i (rands i) st with
      | none => none
      | some st1 => simLoop numberOfDoors numberOfPrizes simulations stopped rands f st1

/-- The states observed after each completed trial of the run, in order. -/
def simTrace (numberOfDoors numberOfPrizes simulations : Nat) (stopped : Nat → Bool)
    (rands : Nat → TrialRand) : Nat → SimState → Option (List SimState)
  | 0, _ => some []
  | f + 1, st =>
    let i := simulations - f
    if stopped i then some []
    else
      match simStep numberOfDoors numberOfPrizes simulations i (rands i) st with
      | none => none
      | some st1 =>
        (simTrace numberOfDoors numberOfPrizes simulations stopped rands f st1).map
          (fun tl => st1 :: tl)

/-- `runSimulation` (lines 164-224): the whole loop followed by the
unconditional `setProgress(100)` of line 222. -/
def runSimulation (numberOfDoors numberOfPrizes simulations : Nat)
    (stopped : Nat → Bool) (rands : Nat → TrialRand) : Option SimState :=
  (simLoop numberOfDoors numberOfPrizes simulations stopped rands simulations
      initSimState).map
    (fun st => { st with progress := 100 })

/-- C6: `validateConfig` checks its five rules in the source's order with the
first failure winning: a `NaN` input yields `notANumber`; otherwise
`doorCount < 3` yields `tooFewDoors`, then `prizeCount < 1` yields
`tooFewPrizes`, then `prizeCount ≥ doorCount` yields `tooManyPrizes`, then
`doorCount - prizeCount < 2` yields `insufficientSwitchChoice`, and otherwise
the configuration is accepted; in particular `(3, 1)` validates and `(3, 2)`
fails with `insufficientSwitchChoice`. -/
theorem validateConfig_rules_in_order :
    (∀ d p : Option Int, validateConfig d p = .notANumber ↔ d = none ∨ p = none) ∧
    (∀ d p : Int, validateConfig (some d) (some p) = .tooFewDoors ↔ d < 3) ∧
    (∀ d p : Int, validateConfig (some d) (some p) = .tooFewPrizes ↔ 3 ≤ d ∧ p < 1) ∧
    (∀ d p : Int, validateConfig (some d) (some p) = .tooManyPrizes ↔
      3 ≤ d ∧ 1 ≤ p ∧ d ≤ p) ∧
    (∀ d p : Int, validateConfig (some d) (some p) = .insufficientSwitchChoice ↔
      3 ≤ d ∧ 1 ≤ p ∧ p < d ∧ d - p < 2) ∧
    (∀ d p : Int, validateConfig (some d) (some p) = .ok ↔
      3 ≤ d ∧ 1 ≤ p ∧ p < d ∧ 2 ≤ d - p) ∧
    validateConfig (some 3) (some 1) = .ok ∧
    validateConfig (some 3) (some 2) = .insufficientSwitchChoice := by
  refine ⟨?_, ?_, ?_, ?_, ?_, ?_, by decide, by decide⟩
  · rintro (_ | d) (_ | p) <;> simp [validateConfig] <;> split_ifs <;> simp
  all_goals intro d p
  all_goals simp only [validateConfig]
  all_goals split_ifs <;> simp <;> omega

/-- C1 counterexample: with 4 doors and 2 prizes (so `prizeCount =
doorCount - 2 > 1`), board `[T,T,F,F]` and pick 0 (a prize door), the
host-open-then-switch step of the source would open door 2 and switch to door
1, which holds a prize — yet the trial records the switch outcome as a loss,
because the source guards the whole switch step with
`if (!initialPickHasPrize)`. -/
theorem switch_shortcut_cex :
    runTrial 4 2 ⟨[0, 1], 0, 0, 0⟩ = some ⟨true, false⟩ ∧
    switchStep [true, true, false, false] 4 0 0 0 = some 1 ∧
    [true, true, false, false].getD 1 false = true := by decide

/-- C1 (amended): in a batch trial whose player pick holds a prize (the stay
outcome is a win), the host-open-then-switch step is skipped and the switch
outcome is recorded as a loss — the source short-circuits rather than
simulating the switch, so even with `prizeCount = doorCount - 2 > 1` a
prize-pick trial never records a switch win. -/
theorem prizePick_switch_recorded_loss (numberOfDoors numberOfPrizes : Nat)
    (tr : TrialRand) (res : TrialResult)
    (h : runTrial numberOfDoors numberOfPrizes tr = some res)
    (hp : res.stayWin = true) : res.switchWin = false := by
  unfold runTrial at h
  cases hg : genBoard numberOfDoors numberOfPrizes tr.boardDraws with
  | none => rw [hg] at h; exact absurd h (by simp)
  | some b =>
    rw [hg] at h
    simp only [Option.some.injEq] at h
    subst h
    simp only at hp ⊢
    rw [hp]
    simp

/-- The amended C1 theorem applied at the concrete trial of the
counterexample's configuration. -/
theorem prizePick_switch_recorded_loss_app :
    (⟨true, false⟩ : TrialResult).switchWin = false :=
  prizePick_switch_recorded_loss 4 2 ⟨[0, 1], 0, 0, 0⟩ ⟨true, false⟩
    (by decide) (by decide)

/-- A successful random selection from an array is one of its elements. -/
theorem listPick_mem {l : List Nat} {r j : Nat} (h : listPick l r = some j) :
    j ∈ l :=
  List.get?_mem h

/-- Membership in the batch host's eligible set gives both host guarantees. -/
theorem simHostOpenable_mem {currentDoors : List Bool}
    {numberOfDoors playerChoice j : Nat}
    (h : j ∈ simHostOpenable currentDoors numberOfDoors playerChoice) :
    j < numberOfDoors ∧ j ≠ playerChoice ∧ currentDoors.getD j false = false := by
  unfold simHostOpenable simOtherDoors at h
  rcases List.mem_filter.mp h with ⟨h1, h2⟩
  rcases List.mem_filter.mp h1 with ⟨h0, h3⟩
  refine ⟨List.mem_range.mp h0, ?_, ?_⟩
  · simpa using h3
  · simpa using h2

/-- Membership in the manual host's eligible set gives an in-range, unselected,
non-prize door. -/
theorem manualHostOpenable_mem {doors : List DoorState} {j : Nat}
    (h : j ∈ manualHostOpenable doors) :
    j < doors.length ∧ (doors.getD j blankDoor).isSelected = false ∧
      (doors.getD j blankDoor).hasPrize = false := by
  unfold manualHostOpenable at h
  rcases List.mem_filter.mp h with ⟨h1, h2⟩
  rw [Bool.and_eq_true, Bool.not_eq_true', Bool.not_eq_true'] at h2
  exact ⟨List.mem_range.mp h1, h2.1, h2.2⟩

/-- C3: the host never reveals the picked door and never reveals a prize door.
In the batch simulator, a successful host selection is never the player's
choice and never a prize door; in the manual game, any door left open by the
host's move is not selected (hence not the picked door, whose `isSelected` is
set) and holds no prize — regardless of whether the picked door itself holds
a prize. -/
theorem host_reveal_never_picked_nor_prize :
    (∀ (currentDoors : List Bool) (numberOfDoors playerChoice hostDraw j : Nat),
      simHostOpen currentDoors numberOfDoors playerChoice hostDraw = some j →
        j ≠ playerChoice ∧ currentDoors.getD j false = false) ∧
    (∀ (doors : List DoorState) (pickedIndex hostDraw j : Nat),
      (doors.getD pickedIndex blankDoor).isSelected = true →
      ((manualHostStep doors hostDraw).getD j blankDoor).isOpen = true →
        j ≠ pickedIndex ∧ (doors.getD j blankDoor).hasPrize = false) := by
  constructor
  · intro currentDoors numberOfDoors playerChoice hostDraw j h
    exact (simHostOpenable_mem (listPick_mem h)).2
  · intro doors pickedIndex hostDraw j hsel hopen
    unfold manualHostStep at hopen
    rw [List.getD_eq_getElem?_getD, List.getElem?_mapIdx] at hopen
    cases hj : doors[j]? with
    | none => rw [hj] at hopen; simp [blankDoor] at hopen
    | some d =>
      rw [hj] at hopen
      simp only [Option.map_some', Option.getD_some] at hopen
      have hpick : listPick (manualHostOpenable doors) hostDraw = some j :=
        (eq_of_beq hopen).symm
      have hmem := manualHostOpenable_mem (listPick_mem hpick)
      refine ⟨fun heq => ?_, hmem.2.2⟩
      rw [heq] at hmem
      rw [hsel] at hmem
      exact Bool.true_eq_false.mp hmem.2.1

/-- The C3 theorem applied at a concrete board and pick: with board
`[prize, goat, goat]` and pick 0, a successful host selection of door 2 is
neither the pick nor a prize, and so is the door the manual host opens. -/
theorem host_reveal_never_picked_nor_prize_app :
    ((1 : Nat) ≠ 0 ∧ [true, false, false].getD 1 false = false) ∧
    ((1 : Nat) ≠ 0 ∧
      ([⟨true, false, true⟩, ⟨false, false, false⟩].getD 1 blankDoor).hasPrize = false) :=
  ⟨host_reveal_never_picked_nor_prize.1 [true, false, false] 3 0 0 1 (by decide),
   host_reveal_never_picked_nor_prize.2 [⟨true, false, true⟩, ⟨false, false, false⟩]
     0 0 1 (by decide) (by decide)⟩

/-- A non-empty array always yields a successful random selection. -/
theorem listPick_isSome {l : List Nat} (h : l ≠ []) (r : Nat) :
    (listPick l r).isSome = true := by
  have hlen : 0 < l.length := List.length_pos.mpr h
  have hlt : r % l.length < l.length := Nat.mod_lt _ hlen
  unfold listPick
  rw [List.get?_eq_getElem?, List.getElem?_eq_getElem hlt]
  rfl

/-- A boolean list with at least one `false` entry has a `false` index. -/
theorem exists_false_of_count {l : List Bool} (h : 1 ≤ l.count false) :
    ∃ j, j < l.length ∧ l.getD j false = false := by
  induction l with
  | nil => simp at h
  | cons a t ih =>
    cases a with
    | false => exact ⟨0, by simp, by simp⟩
    | true =>
      have ht : 1 ≤ t.count false := by simpa using h
      obtain ⟨j, hj, hv⟩ := ih ht
      exact ⟨j + 1, by simpa using hj, by simpa using hv⟩

/-- A boolean list with at least two `false` entries has two distinct `false`
indices. -/
theorem exists_two_false_of_count {l : List Bool} (h : 2 ≤ l.count false) :
    ∃ i j, i ≠ j ∧ i < l.length ∧ j < l.length ∧
      l.getD i false = false ∧ l.getD j false = false := by
  induction l with
  | nil => simp at h
  | cons a t ih =>
    cases a with
    | false =>
      have h1 : 1 ≤ t.count false := by
        rw [List.count_cons_self] at h
        omega
      obtain ⟨j, hj, hv⟩ := exists_false_of_count h1
      exact ⟨0, j + 1, by omega, by simp, by simpa using hj, by simp, by simpa using hv⟩
    | true =>
      have ht : 2 ≤ t.count false := by simpa using h
      obtain ⟨i, j, hij, hi, hj, hvi, hvj⟩ := ih ht
      exact ⟨i + 1, j + 1, by omega, by simpa using hi, by simpa using hj,
        by simpa using hvi, by simpa using hvj⟩

/-- The `true` and `false` counts of a boolean list sum to its length. -/
theorem count_true_add_count_false (l : List Bool) :
    l.count true + l.count false = l.length := by
  induction l with
  | nil => rfl
  | cons a t ih => cases a <;> simp [List.count_cons] <;> omega

/-- C4: under the configuration invariant `doorCount - prizeCount ≥ 2`, for
every board with exactly `prizeCount` prize doors and any single picked door,
the host's eligible set is non-empty and the host's random selection succeeds
(no undefined index), in both the batch trial and the manual game. -/
theorem host_eligible_nonempty :
    (∀ (currentDoors : List Bool) (numberOfDoors numberOfPrizes playerChoice hostDraw : Nat),
      currentDoors.length = numberOfDoors →
      currentDoors.count true = numberOfPrizes →
      2 ≤ numberOfDoors - numberOfPrizes →
      simHostOpenable currentDoors numberOfDoors playerChoice ≠ [] ∧
        (simHostOpen currentDoors numberOfDoors playerChoice hostDraw).isSome = true) ∧
    (∀ (doors : List DoorState) (numberOfDoors numberOfPrizes pickedIndex hostDraw : Nat),
      doors.length = numberOfDoors →
      (doors.map (fun d => d.hasPrize)).count true = numberOfPrizes →
      2 ≤ numberOfDoors - numberOfPrizes →
      (∀ j, j < doors.length → (doors.getD j blankDoor).isSelected = true → j = pickedIndex) →
      manualHostOpenable doors ≠ [] ∧
        (listPick (manualHostOpenable doors) hostDraw).isSome = true) := by
  constructor
  · intro currentDoors nD nP pc hd hlen hcount hinv
    have hfc : 2 ≤ currentDoors.count false := by
      have := count_true_add_count_false currentDoors
      omega
    obtain ⟨i, j, hij, hi, hj, hvi, hvj⟩ := exists_two_false_of_count hfc
    have hex : ∃ k, k < currentDoors.length ∧ currentDoors.getD k false = false ∧ k ≠ pc := by
      by_cases hip : i = pc
      · exact ⟨j, hj, hvj, fun hjj => hij (by omega)⟩
      · exact ⟨i, hi, hvi, hip⟩
    obtain ⟨k, hk, hkv, hkp⟩ := hex
    have hmem : k ∈ simHostOpenable currentDoors nD pc := by
      unfold simHostOpenable simOtherDoors
      refine List.mem_filter.mpr ⟨List.mem_filter.mpr ⟨List.mem_range.mpr (hlen ▸ hk), ?_⟩, ?_⟩
      · simp [hkp]
      · simp only [Bool.not_eq_true']
        exact hkv
    have hne : simHostOpenable currentDoors nD pc ≠ [] := List.ne_nil_of_mem hmem
    exact ⟨hne, listPick_isSome hne hd⟩
  · intro doors nD nP pick hd hlen hcount hinv hsel
    have hmaplen : (doors.map (fun d => d.hasPrize)).length = doors.length :=
      List.length_map _ _
    have hfc : 2 ≤ (doors.map (fun d => d.hasPrize)).count false := by
      have := count_true_add_count_false (doors.map (fun d => d.hasPrize))
      omega
    obtain ⟨i, j, hij, hi, hj, hvi, hvj⟩ := exists_two_false_of_count hfc
    have hconv : ∀ m, m < doors.length →
        (doors.map (fun d => d.hasPrize)).getD m false = (doors.getD m blankDoor).hasPrize := by
      intro m hm
      rw [List.getD_eq_getElem?_getD, List.getD_eq_getElem?_getD, List.getElem?_map,
        List.getElem?_eq_getElem hm]
      rfl
    rw [hmaplen] at hi hj
    have hex : ∃ k, k < doors.length ∧ (doors.getD k blankDoor).hasPrize = false ∧ k ≠ pick := by
      by_cases hip : i = pick
      · refine ⟨j, hj, ?_, fun hjj => hij (by omega)⟩
        rw [← hconv j hj]
        exact hvj
      · refine ⟨i, hi, ?_, hip⟩
        rw [← hconv i hi]
        exact hvi
    obtain ⟨k, hk, hkv, hkp⟩ := hex
    have hksel : (doors.getD k blankDoor).isSelected = false := by
      cases hx : (doors.getD k blankDoor).isSelected with
      | false => rfl
      | true => exact absurd (hsel k hk hx) hkp
    have hmem : k ∈ manualHostOpenable doors := by
      unfold manualHostOpenable
      refine List.mem_filter.mpr ⟨List.mem_range.mpr hk, ?_⟩
      simp only [Bool.and_eq_true, Bool.not_eq_true']
      exact ⟨hksel, hkv⟩
    have hne := List.ne_nil_of_mem hmem
    exact ⟨hne, listPick_isSome hne hd⟩

/-- The C4 theorem applied at a concrete valid configuration: 3 doors, 1
prize, pick 0 — the eligible set is non-empty and the host selection
succeeds in both modes. -/
theorem host_eligible_nonempty_app :
    (simHostOpenable [true, false, false] 3 0 ≠ [] ∧
      (simHostOpen [true, false, false] 3 0 0).isSome = true) ∧
    (manualHostOpenable
        [⟨true, false, true⟩, ⟨false, false, false⟩, ⟨false, false, false⟩] ≠ [] ∧
      (listPick (manualHostOpenable
        [⟨true, false, true⟩, ⟨false, false, false⟩, ⟨false, false, false⟩]) 0).isSome = true) :=
  ⟨host_eligible_nonempty.1 [true, false, false] 3 1 0 0 rfl rfl (by decide),
   host_eligible_nonempty.2
     [⟨true, false, true⟩, ⟨false, false, false⟩, ⟨false, false, false⟩] 3 1 0 0
     rfl rfl (by decide) (by decide)⟩

/-- Invariant of the batch rejection-sampling loop: a successful run preserves
the board length and places exactly `need` additional prizes. -/
theorem placePrizes_spec :
    ∀ (draws : List Nat) (doors : List Bool) (need : Nat) (b : List Bool),
      0 < doors.length → placePrizes doors need draws = some b →
      b.length = doors.length ∧ b.count true = doors.count true + need := by
  intro draws
  induction draws with
  | nil =>
    intro doors need b hpos h
    cases need with
    | zero =>
      simp only [placePrizes, Option.some.injEq] at h
      subst h
      simp
    | succ n => simp [placePrizes] at h
  | cons d rest ih =>
    intro doors need b hpos h
    cases need with
    | zero =>
      simp only [placePrizes, Option.some.injEq] at h
      subst h
      simp
    | succ n =>
      rw [placePrizes] at h
      split_ifs at h with hg
      · exact ih doors (n + 1) b hpos h
      · have hlt : d % doors.length < doors.length := Nat.mod_lt _ hpos
        have hlen2 : (doors.set (d % doors.length) true).length = doors.length :=
          List.length_set doors _ _
        have hpos2 : 0 < (doors.set (d % doors.length) true).length := by
          rw [hlen2]; exact hpos
        obtain ⟨h1, h2⟩ := ih _ n b hpos2 h
        have hfalse : doors[d % doors.length] = false := by
          have hgd : doors.getD (d % doors.length) false = doors[d % doors.length] := by
            rw [List.getD_eq_getElem?_getD, List.getElem?_eq_getElem hlt]
            rfl
          rw [hgd] at hg
          exact Bool.eq_false_iff.mpr hg
        have hcnt : (doors.set (d % doors.length) true).count true =
            doors.count true + 1 := by
          rw [List.count_set true true doors _ hlt, hfalse]
          simp
        refine ⟨by rw [h1, hlen2], ?_⟩
        rw [h2, hcnt]
        omega

/-- Invariant of the manual rejection-sampling loop: a successful run
preserves the board length and marks exactly `need` additional prize doors. -/
theorem placePrizesM_spec :
    ∀ (draws : List Nat) (doors : List DoorState) (need : Nat) (b : List DoorState),
      0 < doors.length → placePrizesM doors need draws = some b →
      b.length = doors.length ∧
        (b.map (fun d => d.hasPrize)).count true =
          (doors.map (fun d => d.hasPrize)).count true + need := by
  intro draws
  induction draws with
  | nil =>
    intro doors need b hpos h
    cases need with
    | zero =>
      simp only [placePrizesM, Option.some.injEq] at h
      subst h
      simp
    | succ n => simp [placePrizesM] at h
  | cons d rest ih =>
    intro doors need b hpos h
    cases need with
    | zero =>
      simp only [placePrizesM, Option.some.injEq] at h
      subst h
      simp
    | succ n =>
      rw [placePrizesM] at h
      split_ifs at h with hg
      · exact ih doors (n + 1) b hpos h
      · have hlt : d % doors.length < doors.length := Nat.mod_lt _ hpos
        have hlen2 : (doors.set (d % doors.length)
            { doors.getD (d % doors.length) blankDoor with hasPrize := true }).length =
            doors.length :=
          List.length_set doors _ _
        have hpos2 : 0 < (doors.set (d % doors.length)
            { doors.getD (d % doors.length) blankDoor with hasPrize := true }).length := by
          rw [hlen2]; exact hpos
        obtain ⟨h1, h2⟩ := ih _ n b hpos2 h
        have hmaplt : d % doors.length < (doors.map (fun d => d.hasPrize)).length := by
          rw [List.length_map]
          exact hlt
        have hfalse : (doors.map (fun d => d.hasPrize))[d % doors.length] = false := by
          have hgd : doors.getD (d % doors.length) blankDoor = doors[d % doors.length] := by
            rw [List.getD_eq_getElem?_getD, List.getElem?_eq_getElem hlt]
            rfl
          rw [hgd] at hg
          rw [List.getElem_map]
          exact Bool.eq_false_iff.mpr hg
        have hcnt : ((doors.set (d % doors.length)
            { doors.getD (d % doors.length) blankDoor with hasPrize := true }).map
              (fun d => d.hasPrize)).count true =
            (doors.map (fun d => d.hasPrize)).count true + 1 := by
          rw [List.map_set, List.count_set true _ _ _ hmaplt, hfalse]
          simp
        refine ⟨by rw [h1, hlen2], ?_⟩
        rw [h2, hcnt]
        omega

/-- C5: for every valid configuration (in particular `doorCount > 0`), a
successful board generation returns a board of length `doorCount` with
exactly `prizeCount` prize doors and `doorCount - prizeCount` non-prize
doors — for the batch simulator's per-trial construction and the manual
game's `setupDoors` alike. -/
theorem board_generation_exact_counts :
    (∀ (numberOfDoors numberOfPrizes : Nat) (draws : List Nat) (b : List Bool),
      0 < numberOfDoors →
      genBoard numberOfDoors numberOfPrizes draws = some b →
      b.length = numberOfDoors ∧ b.count true = numberOfPrizes ∧
        b.count false = numberOfDoors - numberOfPrizes) ∧
    (∀ (numberOfDoors numberOfPrizes : Nat) (draws : List Nat) (ds : List DoorState),
      0 < numberOfDoors →
      setupDoors numberOfDoors numberOfPrizes draws = some ds →
      ds.length = numberOfDoors ∧
        (ds.map (fun d => d.hasPrize)).count true = numberOfPrizes ∧
        (ds.map (fun d => d.hasPrize)).count false = numberOfDoors - numberOfPrizes) := by
  constructor
  · intro nD nP draws b hpos h
    unfold genBoard at h
    have hrep : 0 < (List.replicate nD false).length := by
      rw [List.length_replicate]; exact hpos
    obtain ⟨h1, h2⟩ := placePrizes_spec draws _ nP b hrep h
    rw [List.length_replicate] at h1
    rw [List.count_replicate] at h2
    simp at h2
    have hsum := count_true_add_count_false b
    exact ⟨h1, h2, by omega⟩
  · intro nD nP draws ds hpos h
    unfold setupDoors at h
    have hrep : 0 < (List.replicate nD blankDoor).length := by
      rw [List.length_replicate]; exact hpos
    obtain ⟨h1, h2⟩ := placePrizesM_spec draws _ nP ds hrep h
    rw [List.length_replicate] at h1
    rw [List.map_replicate] at h2
    rw [List.count_replicate] at h2
    simp [blankDoor] at h2
    have hsum := count_true_add_count_false (ds.map (fun d => d.hasPrize))
    have hmlen : (ds.map (fun d => d.hasPrize)).length = ds.length := List.length_map _ _
    exact ⟨h1, h2, by omega⟩

/-- The C5 theorem applied at the concrete configuration of 3 doors and 1
prize with draw list `[0]`: the generated boards have exactly one prize. -/
theorem board_generation_exact_counts_app :
    (([true, false, false] : List Bool).length = 3 ∧
      ([true, false, false] : List Bool).count true = 1 ∧
      ([true, false, false] : List Bool).count false = 2) ∧
    (([⟨true, false, false⟩, ⟨false, false, false⟩, ⟨false, false, false⟩] :
        List DoorState).length = 3 ∧
      (([⟨true, false, false⟩, ⟨false, false, false⟩, ⟨false, false, false⟩] :
        List DoorState).map (fun d => d.hasPrize)).count true = 1 ∧
      (([⟨true, false, false⟩, ⟨false, false, false⟩, ⟨false, false, false⟩] :
        List DoorState).map (fun d => d.hasPrize)).count false = 2) :=
  ⟨board_generation_exact_counts.1 3 1 [0] [true, false, false] (by decide) (by decide),
   board_generation_exact_counts.2 3 1 [0]
     [⟨true, false, false⟩, ⟨false, false, false⟩, ⟨false, false, false⟩]
     (by decide) (by decide)⟩

/-- C8: a finalize click in the `revealed` state on a closed door increments
`total` by exactly 1; when the chosen door has a prize it increments exactly
one of `stayWins`/`switchWins` (`stayWins` when the final choice equals the
initial pick, `switchWins` otherwise), and when it has no prize it increments
neither. -/
theorem finalize_updates_stats (st : ManualState) (clickedIndex : Nat)
    (hrev : st.gameState = .revealed)
    (hclosed : (st.doors.getD clickedIndex blankDoor).isOpen = false) :
    (handleDoorClick st clickedIndex).total = st.total + 1 ∧
    ((st.doors.getD clickedIndex blankDoor).hasPrize = true →
      (((clickedIndex : Int) = manualInitialChoice st.doors →
        (handleDoorClick st clickedIndex).stayWins = st.stayWins + 1 ∧
        (handleDoorClick st clickedIndex).switchWins = st.switchWins) ∧
      ((clickedIndex : Int) ≠ manualInitialChoice st.doors →
        (handleDoorClick st clickedIndex).switchWins = st.switchWins + 1 ∧
        (handleDoorClick st clickedIndex).stayWins = st.stayWins))) ∧
    ((st.doors.getD clickedIndex blankDoor).hasPrize = false →
      (handleDoorClick st clickedIndex).stayWins = st.stayWins ∧
      (handleDoorClick st clickedIndex).switchWins = st.switchWins) := by
  have hred : handleDoorClick st clickedIndex =
      { doors := st.doors.mapIdx
          (fun i d => { d with isOpen := true, isSelected := i == clickedIndex })
        gameState := .finished
        stayWins := if !((clickedIndex : Int) != manualInitialChoice st.doors) &&
            (st.doors.getD clickedIndex blankDoor).hasPrize then st.stayWins + 1
          else st.stayWins
        switchWins := if ((clickedIndex : Int) != manualInitialChoice st.doors) &&
            (st.doors.getD clickedIndex blankDoor).hasPrize then st.switchWins + 1
          else st.switchWins
        total := st.total + 1 } := by
    unfold handleDoorClick
    rw [hrev]
    rw [if_neg (by rw [hclosed]; exact Bool.false_ne_true)]
  rw [hred]
  refine ⟨rfl, ?_, ?_⟩
  · intro hw
    have hw2 : (st.doors[clickedIndex]?.getD blankDoor).hasPrize = true := by
      rw [← List.getD_eq_getElem?_getD]
      exact hw
    constructor
    · intro heq
      have hsw : ((clickedIndex : Int) != manualInitialChoice st.doors) = false := by
        simp [heq]
      simp [hsw, hw2]
    · intro hne
      have hsw : ((clickedIndex : Int) != manualInitialChoice st.doors) = true := by
        simp [hne]
      simp [hsw, hw2]
  · intro hw
    have hw2 : (st.doors[clickedIndex]?.getD blankDoor).hasPrize = false := by
      rw [← List.getD_eq_getElem?_getD]
      exact hw
    simp [hw2]

/-- The C8 theorem applied at a concrete revealed state: finalizing on closed
prize door 0 (the initial pick) increments `total` and `stayWins` only. -/
theorem finalize_updates_stats_app :
    (handleDoorClick
        ⟨[⟨true, false, true⟩, ⟨false, true, false⟩, ⟨false, false, false⟩],
          .revealed, 0, 0, 0⟩ 0).total = 0 + 1 ∧
    (handleDoorClick
        ⟨[⟨true, false, true⟩, ⟨false, true, false⟩, ⟨false, false, false⟩],
          .revealed, 0, 0, 0⟩ 0).stayWins = 0 + 1 ∧
    (handleDoorClick
        ⟨[⟨true, false, true⟩, ⟨false, true, false⟩, ⟨false, false, false⟩],
          .revealed, 0, 0, 0⟩ 0).switchWins = 0 := by
  have h := finalize_updates_stats
    ⟨[⟨true, false, true⟩, ⟨false, true, false⟩, ⟨false, false, false⟩],
      .revealed, 0, 0, 0⟩ 0 rfl (by decide)
  have h2 := (h.2.1 (by decide)).1 (by decide)
  exact ⟨h.1, h2.1, h2.2⟩

/-- C9: an action that is invalid for the current state — any door click
while the game is `picked` or `finished`, and a finalize click on an already
open door in `revealed` — is a no-op: the whole state (doors, phase and
stats) is returned unchanged. -/
theorem invalid_actions_noop (st : ManualState) (clickedIndex : Nat)
    (h : st.gameState = .picked ∨ st.gameState = .finished ∨
      (st.gameState = .revealed ∧
        (st.doors.getD clickedIndex blankDoor).isOpen = true)) :
    handleDoorClick st clickedIndex = st := by
  rcases h with h | h | ⟨h, hopen⟩
  · unfold handleDoorClick
    rw [h]
  · unfold handleDoorClick
    rw [h]
  · unfold handleDoorClick
    rw [h]
    rw [if_pos hopen]

/-- The C9 theorem applied at a concrete `picked` state: the click changes
nothing. -/
theorem invalid_actions_noop_app :
    handleDoorClick ⟨[⟨false, false, true⟩, ⟨false, false, false⟩], .picked, 1, 2, 4⟩ 1 =
      ⟨[⟨false, false, true⟩, ⟨false, false, false⟩], .picked, 1, 2, 4⟩ :=
  invalid_actions_noop _ 1 (Or.inl rfl)

/-- The manual stats invariant: the win counters never exceed the number of
finished games. -/
def statsInv (st : ManualState) : Prop :=
  st.stayWins + st.switchWins ≤ st.total

/-- C10: `stayWins + switchWins ≤ total` holds in a fresh session and is
preserved by every action: door clicks (each finalize adds 1 to `total` and
at most 1 to exactly one win counter), the host's move, and reset — which
regenerates the board but leaves the stats unchanged. -/
theorem stats_inequality_preserved :
    (∀ doors : List DoorState, statsInv ⟨doors, .initial, 0, 0, 0⟩) ∧
    (∀ (st : ManualState) (i : Nat), statsInv st → statsInv (handleDoorClick st i)) ∧
    (∀ (st : ManualState) (hd : Nat), statsInv st → statsInv (hostMove st hd)) ∧
    (∀ (numberOfDoors numberOfPrizes : Nat) (st st1 : ManualState) (draws : List Nat),
      resetManualGame numberOfDoors numberOfPrizes st draws = some st1 →
      st1.stayWins = st.stayWins ∧ st1.switchWins = st.switchWins ∧
        st1.total = st.total ∧ (statsInv st → statsInv st1)) := by
  refine ⟨?_, ?_, ?_, ?_⟩
  · intro doors
    simp [statsInv]
  · intro st i hinv
    unfold handleDoorClick
    cases hgs : st.gameState with
    | finished => exact hinv
    | picked => exact hinv
    | initial => exact hinv
    | revealed =>
      by_cases hopen : (st.doors.getD i blankDoor).isOpen = true
      · rw [if_pos hopen]
        exact hinv
      · rw [if_neg hopen]
        simp only [statsInv] at hinv ⊢
        cases hsw : ((i : Int) != manualInitialChoice st.doors) <;>
          cases hw : (st.doors.getD i blankDoor).hasPrize <;>
          simp [hsw, hw] <;> omega
  · intro st hd hinv
    exact hinv
  · intro nD nP st st1 draws h
    unfold resetManualGame at h
    cases hs : setupDoors nD nP draws with
    | none => rw [hs] at h; exact absurd h (by simp)
    | some ds =>
      rw [hs] at h
      simp only [Option.map_some', Option.some.injEq] at h
      subst h
      exact ⟨rfl, rfl, rfl, fun hi => hi⟩

/-- The C10 theorem applied at a concrete finalize click: the invariant holds
after finalizing a stay win from `(0, 0, 0)` stats. -/
theorem stats_inequality_preserved_app :
    statsInv (handleDoorClick
      ⟨[⟨true, false, true⟩, ⟨false, true, false⟩, ⟨false, false, false⟩],
        .revealed, 0, 0, 0⟩ 0) :=
  stats_inequality_preserved.2.1
    ⟨[⟨true, false, true⟩, ⟨false, true, false⟩, ⟨false, false, false⟩],
      .revealed, 0, 0, 0⟩ 0 (by simp [statsInv])

/-- What one loop iteration does to the counter fields: both local counters
grow by the trial's outcome, both published stats records are rebuilt from the
new counters and the trial index, and the trial counter becomes `i`; the
sampling and reporting branches touch only `animationData` and `progress`. -/
theorem simStep_fields (numberOfDoors numberOfPrizes simulations i : Nat)
    (tr : TrialRand) (st st1 : SimState)
    (h : simStep numberOfDoors numberOfPrizes simulations i tr st = some st1) :
    ∃ res, runTrial numberOfDoors numberOfPrizes tr = some res ∧
      st1.localStayWins = st.localStayWins + (if res.stayWin then 1 else 0) ∧
      st1.localSwitchWins = st.localSwitchWins + (if res.switchWin then 1 else 0) ∧
      st1.stayStats = ⟨st1.localStayWins, i - st1.localStayWins⟩ ∧
      st1.switchStats = ⟨st1.localSwitchWins, i - st1.localSwitchWins⟩ ∧
      st1.trialsCompleted = i := by
  unfold simStep at h
  cases hrt : runTrial numberOfDoors numberOfPrizes tr with
  | none => rw [hrt] at h; exact absurd h (by simp)
  | some res =>
    rw [hrt] at h
    simp only [Option.some.injEq] at h
    refine ⟨res, rfl, ?_⟩
    subst h
    split_ifs <;> simp

/-- Invariant of the batch trace: entering a call with `fuel` iterations left,
the local counters are bounded by the number of already completed trials
`simulations - fuel`; every state the trace records then satisfies the
wins-plus-losses bookkeeping identity. -/
theorem simTrace_stats_inv (numberOfDoors numberOfPrizes simulations : Nat)
    (stopped : Nat → Bool) (rands : Nat → TrialRand) :
    ∀ (fuel : Nat) (st : SimState) (tra : List SimState),
      fuel ≤ simulations →
      st.localStayWins ≤ simulations - fuel →
      st.localSwitchWins ≤ simulations - fuel →
      simTrace numberOfDoors numberOfPrizes simulations stopped rands fuel st =
        some tra →
      ∀ s ∈ tra, s.stayStats.wins + s.stayStats.losses = s.trialsCompleted ∧
        s.switchStats.wins + s.switchStats.losses = s.trialsCompleted := by
  intro fuel
  induction fuel with
  | zero =>
    intro st tra _ _ _ h s hs
    simp only [simTrace, Option.some.injEq] at h
    subst h
    simp at hs
  | succ f ih =>
    intro st tra hf h1 h2 h
    rw [simTrace] at h
    split_ifs at h with hstop
    · simp only [Option.some.injEq] at h
      subst h
      intro s hs
      simp at hs
    · cases hstep : simStep numberOfDoors numberOfPrizes simulations
          (simulations - f) (rands (simulations - f)) st with
      | none => rw [hstep] at h; exact absurd h (by simp)
      | some st1 =>
        rw [hstep] at h
        simp only [Option.map_eq_some'] at h
        obtain ⟨tl, htl, htra⟩ := h
        subst htra
        obtain ⟨res, _, hsw, hsww, hstay, hswitch, htc⟩ :=
          simStep_fields numberOfDoors numberOfPrizes simulations
            (simulations - f) (rands (simulations - f)) st st1 hstep
        have hswb : st1.localStayWins ≤ simulations - f := by
          rw [hsw]
          split_ifs <;> omega
        have hswwb : st1.localSwitchWins ≤ simulations - f := by
          rw [hsww]
          split_ifs <;> omega
        intro s hs
        rcases List.mem_cons.mp hs with hhead | htail
        · subst hhead
          rw [hstay, hswitch, htc]
          constructor
          · simp only []
            omega
          · simp only []
            omega
        · exact ih st1 tl (by omega) hswb hswwb htl s htail

/-- C7: at every observation point of a batch run — after each completed
trial — the published stay stats and switch stats each sum to the number of
trials completed so far. -/
theorem stats_totals_equal_trials (numberOfDoors numberOfPrizes simulations : Nat)
    (stopped : Nat → Bool) (rands : Nat → TrialRand) (tra : List SimState)
    (h : simTrace numberOfDoors numberOfPrizes simulations stopped rands
      simulations initSimState = some tra) :
    ∀ s ∈ tra, s.stayStats.wins + s.stayStats.losses = s.trialsCompleted ∧
      s.switchStats.wins + s.switchStats.losses = s.trialsCompleted :=
  simTrace_stats_inv numberOfDoors numberOfPrizes simulations stopped rands
    simulations initSimState tra le_rfl
    (by simp [initSimState]) (by simp [initSimState]) h

/-- The C7 theorem applied at a concrete run of 200 scheduled trials stopped
after the first: the single observed state has `1 + 0 = 1` stay outcomes and
`0 + 1 = 1` switch outcomes. -/
theorem stats_totals_equal_trials_app :
    (1 : Nat) + 0 = 1 ∧ (0 : Nat) + 1 = 1 :=
  stats_totals_equal_trials 3 1 200 (fun i => decide (2 ≤ i))
    (fun _ => ⟨[0], 0, 0, 0⟩)
    [⟨1, 0, ⟨1, 0⟩, ⟨0, 1⟩, 0, [true], 1⟩] (by decide)
    ⟨1, 0, ⟨1, 0⟩, ⟨0, 1⟩, 0, [true], 1⟩ (List.mem_singleton.mpr rfl)

/-- C2 counterexample: a run of 200 scheduled trials whose stop flag is set
from trial 2 onward completes exactly one trial and retains its stats, but the
unconditional `setProgress(100)` after the loop reports 100% — not the
fraction `1/200 * 100` of trials actually completed. -/
theorem cancel_progress_cex :
    runSimulation 3 1 200 (fun i => decide (2 ≤ i)) (fun _ => ⟨[0], 0, 0, 0⟩) =
      some ⟨1, 0, ⟨1, 0⟩, ⟨0, 1⟩, 100, [true], 1⟩ ∧
    (100 : ℚ) ≠ (1 : ℚ) / 200 * 100 := by
  constructor
  · decide
  · norm_num

/-- Invariant of the cancelled batch loop: with a monotone stop flag that is
set at check point `k`, a call entered before `k` with consistent bookkeeping
ends with fewer than `k` completed trials and stats that sum to the completed
count. -/
theorem simLoop_cancel (numberOfDoors numberOfPrizes simulations k : Nat)
    (stopped : Nat → Bool) (rands : Nat → TrialRand)
    (hmono : ∀ i j, i ≤ j → stopped i = true → stopped j = true)
    (hk : stopped k = true) :
    ∀ (fuel : Nat) (st st1 : SimState),
      fuel ≤ simulations →
      st.trialsCompleted = simulations - fuel →
      st.trialsCompleted < k →
      st.localStayWins ≤ st.trialsCompleted →
      st.localSwitchWins ≤ st.trialsCompleted →
      st.stayStats = ⟨st.localStayWins, st.trialsCompleted - st.localStayWins⟩ →
      st.switchStats = ⟨st.localSwitchWins, st.trialsCompleted - st.localSwitchWins⟩ →
      simLoop numberOfDoors numberOfPrizes simulations stopped rands fuel st =
        some st1 →
      st1.trialsCompleted < k ∧
        st1.stayStats.wins + st1.stayStats.losses = st1.trialsCompleted ∧
        st1.switchStats.wins + st1.switchStats.losses = st1.trialsCompleted := by
  intro fuel
  induction fuel with
  | zero =>
    intro st st1 _ _ hlt hs1 hs2 hst hsw h
    simp only [simLoop, Option.some.injEq] at h
    subst h
    rw [hst, hsw]
    exact ⟨hlt, by simp only []; omega, by simp only []; omega⟩
  | succ f ih =>
    intro st st1 hf htc hlt hs1 hs2 hst hsw h
    rw [simLoop] at h
    split_ifs at h with hstop
    · simp only [Option.some.injEq] at h
      subst h
      rw [hst, hsw]
      exact ⟨hlt, by simp only []; omega, by simp only []; omega⟩
    · cases hstep : simStep numberOfDoors numberOfPrizes simulations
          (simulations - f) (rands (simulations - f)) st with
      | none => rw [hstep] at h; exact absurd h (by simp)
      | some st2 =>
        rw [hstep] at h
        obtain ⟨res, _, hsw2, hsww2, hstay2, hswitch2, htc2⟩ :=
          simStep_fields numberOfDoors numberOfPrizes simulations
            (simulations - f) (rands (simulations - f)) st st2 hstep
        have hik : simulations - f < k := by
          by_contra hcon
          exact hstop (hmono k (simulations - f) (by omega) hk)
        refine ih st2 st1 (by omega) (by omega) (by omega) ?_ ?_ ?_ ?_ h
        · rw [hsw2, htc2]
          split_ifs <;> omega
        · rw [hsww2, htc2]
          split_ifs <;> omega
        · rw [hstay2, htc2]
        · rw [hswitch2, htc2]

/-- C2 (amended): when cancellation is requested during a run (the stop flag,
monotone once set, is true at some check point `k ≥ 1`), the loop stops before
starting the next trial — fewer than `k` trials are counted — the accumulated
stats are retained as the final stats with wins plus losses equal to the
number of trials actually completed (no partial trial is counted), but the
final reported progress is forced to 100 by the unconditional
`setProgress(100)` after the loop, not the fraction of trials completed. -/
theorem cancellation_behavior (numberOfDoors numberOfPrizes simulations k : Nat)
    (stopped : Nat → Bool) (rands : Nat → TrialRand) (st : SimState)
    (hmono : ∀ i j, i ≤ j → stopped i = true → stopped j = true)
    (hk : stopped k = true) (hk1 : 1 ≤ k)
    (hrun : runSimulation numberOfDoors numberOfPrizes simulations stopped rands =
      some st) :
    st.trialsCompleted < k ∧
      st.stayStats.wins + st.stayStats.losses = st.trialsCompleted ∧
      st.switchStats.wins + st.switchStats.losses = st.trialsCompleted ∧
      st.progress = 100 := by
  unfold runSimulation at hrun
  cases hloop : simLoop numberOfDoors numberOfPrizes simulations stopped rands
      simulations initSimState with
  | none => rw [hloop] at hrun; exact absurd hrun (by simp)
  | some st0 =>
    rw [hloop] at hrun
    simp only [Option.map_some', Option.some.injEq] at hrun
    subst hrun
    have hres := simLoop_cancel numberOfDoors numberOfPrizes simulations k
      stopped rands hmono hk simulations initSimState st0 le_rfl
      (by simp [initSimState]) (by simp [initSimState]; omega)
      (by simp [initSimState]) (by simp [initSimState])
      (by simp [initSimState]) (by simp [initSimState]) hloop
    exact ⟨hres.1, hres.2.1, hres.2.2, rfl⟩

/-- The C2 theorem applied at the concrete cancelled run of the
counterexample: one completed trial, consistent stats, progress 100. -/
theorem cancellation_behavior_app :
    (⟨1, 0, ⟨1, 0⟩, ⟨0, 1⟩, 100, [true], 1⟩ : SimState).trialsCompleted < 2 ∧
      (⟨1, 0, ⟨1, 0⟩, ⟨0, 1⟩, 100, [true], 1⟩ : SimState).stayStats.wins +
        (⟨1, 0, ⟨1, 0⟩, ⟨0, 1⟩, 100, [true], 1⟩ : SimState).stayStats.losses =
        (⟨1, 0, ⟨1, 0⟩, ⟨0, 1⟩, 100, [true], 1⟩ : SimState).trialsCompleted ∧
      (⟨1, 0, ⟨1, 0⟩, ⟨0, 1⟩, 100, [true], 1⟩ : SimState).switchStats.wins +
        (⟨1, 0, ⟨1, 0⟩, ⟨0, 1⟩, 100, [true], 1⟩ : SimState).switchStats.losses =
        (⟨1, 0, ⟨1, 0⟩, ⟨0, 1⟩, 100, [true], 1⟩ : SimState).trialsCompleted ∧
      (⟨1, 0, ⟨1, 0⟩, ⟨0, 1⟩, 100, [true], 1⟩ : SimState).progress = 100 :=
  cancellation_behavior 3 1 200 2 (fun i => decide (2 ≤ i))
    (fun _ => ⟨[0], 0, 0, 0⟩) ⟨1, 0, ⟨1, 0⟩, ⟨0, 1⟩, 100, [true], 1⟩
    (fun i j hij hi => by simp at hi ⊢; omega) (by decide) (by decide) (by decide)
